import Mathlib

/-!
Read-only firmware settings registry (`smartjs/src/device_config.h`).

A shallow embedding of `struct ro_var`, the global `g_ro_vars` and the
`REGISTER_RO_VAR` macro, followed by the properties of the registry they build.

Memory model.  Every expansion of `REGISTER_RO_VAR` declares its own
`static struct ro_var v`, so the descriptors that the header can ever link are
in one-to-one correspondence with the expansion sites; a `struct ro_var *` is
therefore either `NULL` (`none`) or the address of the descriptor of one site.
The stringified `#_name` is a compile-time constant of the site.  The text of `_ptr`
is pasted into the block that declares `v` and is evaluated there, each time the site
is executed: where that text contains the identifier `v` it denotes the descriptor of
the site and not an object of the module that wrote the call.
A `const char *` is modelled by the text it points to (`none` for `NULL`); a
`const char **` points to a cell of a module or into a descriptor.
-/

namespace DeviceConfig

/-! ## Data model -/

/-- An expansion site of `REGISTER_RO_VAR`: `id` tells apart distinct expansions
(and hence their `static struct ro_var v` objects), `name` is the text that
`#_name` stringifies to at that site. -/
structure call_site where
  id : Nat
  name : String
deriving DecidableEq, Repr

/-- A value of type `const char **`: `NULL`, the address of a `const char *` cell of a
module, the address `&w.name` of the `name` member of the descriptor of site `w`, or
the address `&w` of that descriptor itself (what `&v` yields inside the macro block;
compilers accept the mismatched pointer type with a warning). -/
inductive char_pp where
  | null
  | cell (c : Nat)
  | var_name (w : call_site)
  | var (w : call_site)
deriving DecidableEq, Repr

/-- The text a module writes as the `_ptr` argument of `REGISTER_RO_VAR`.
`value p` is any text in which the identifier `v` does not occur, `p` being what it
evaluates to (`&build_id` is `value (char_pp.cell c)` for the cell `c` of `build_id`).
`addr_v_name` is the text `&v.name` and `addr_v` the text `&v`; their `caller` is what
that text denotes in the scope of the module that wrote the call (`none` when that scope
declares no `v`). -/
inductive ptr_arg where
  | value (p : char_pp)
  | addr_v_name (caller : Option char_pp)
  | addr_v (caller : Option char_pp)
deriving DecidableEq, Repr

/-- The argument `&x` for a module variable `x` (not called `v`) that lives in cell `c`. -/
def cell_arg (c : Nat) : ptr_arg := ptr_arg.value (char_pp.cell c)

/-- The reference the module passes: what the text of the argument denotes where the
module wrote it. -/
def at_caller : ptr_arg → Option char_pp
  | ptr_arg.value p => some p
  | ptr_arg.addr_v_name caller => caller
  | ptr_arg.addr_v caller => caller

/-- What the text of the argument denotes once pasted into the block of the macro at
site `v`, where the identifier `v` is the `static struct ro_var v` of that site. -/
def in_expansion (v : call_site) : ptr_arg → char_pp
  | ptr_arg.value p => p
  | ptr_arg.addr_v_name _ => char_pp.var_name v
  | ptr_arg.addr_v _ => char_pp.var v

/-- Read-only firmware setting: `struct ro_var`. -/
structure ro_var where
  next : Option call_site
  name : Option String
  ptr : char_pp
deriving DecidableEq, Repr

/-- The memory the header talks about: the global `g_ro_vars`, the static
descriptor of every site, and the `const char *` cells owned by the modules. -/
structure State where
  g_ro_vars : Option call_site
  vars : call_site → ro_var
  cells : Nat → Option String

/-- A zero-initialised static descriptor. -/
def zero_var : ro_var := { next := none, name := none, ptr := char_pp.null }

/-- Program start: `g_ro_vars` is `NULL`, every static descriptor is zeroed, and the
cells hold whatever the modules initialised them with. -/
def boot (cells : Nat → Option String) : State :=
  { g_ro_vars := none, vars := fun _ => zero_var, cells := cells }

/-- One execution of `REGISTER_RO_VAR(_name, _ptr)` at site `v`: the four
assignments of the macro body, in order.  `v.ptr = (_ptr)` evaluates the pasted
argument text inside the block, hence `in_expansion`. -/
def REGISTER_RO_VAR (v : call_site) (_ptr : ptr_arg) (s : State) : State :=
  let s1 : State := { s with vars := Function.update s.vars v { s.vars v with name := some v.name } }
  let s2 : State :=
    { s1 with vars := Function.update s1.vars v { s1.vars v with ptr := in_expansion v _ptr } }
  let s3 : State :=
    { s2 with vars := Function.update s2.vars v { s2.vars v with next := s2.g_ro_vars } }
  { s3 with g_ro_vars := some v }

/-- A sequence of executions of `REGISTER_RO_VAR`, first element first. -/
def register_all (regs : List (call_site × ptr_arg)) (s : State) : State :=
  regs.foldl (fun st r => REGISTER_RO_VAR r.1 r.2 st) s

/-- The owning module stores a new string pointer into its cell `c`. -/
def store_cell (c : Nat) (str : Option String) (s : State) : State :=
  { s with cells := Function.update s.cells c str }

/-- The value `*ptr` of a `const char **`: the string pointer in the cell, or the `name`
of the descriptor pointed into.  A `NULL` `ptr`, and a `ptr` that is really the address
of a descriptor (whose first member is not a string pointer), are read as `NULL`; C
leaves both cases undefined. -/
def deref (s : State) (p : char_pp) : Option String :=
  match p with
  | char_pp.null => none
  | char_pp.cell c => s.cells c
  | char_pp.var_name w => (s.vars w).name
  | char_pp.var _ => none

/-- Start at pointer `p` and follow `next` until `NULL`, collecting the descriptors
met on the way.  `fuel` bounds the number of descriptors visited; `none` means
that `NULL` was not reached within that bound. -/
def walk (s : State) : Nat → Option call_site → Option (List call_site)
  | _, none => some []
  | 0, some _ => none
  | fuel + 1, some v => (walk s fuel (s.vars v).next).map (fun l => v :: l)

/-- The traversal of the registry: `walk` from the current head `g_ro_vars`. -/
def traverse (s : State) (fuel : Nat) : Option (List call_site) :=
  walk s fuel s.g_ro_vars

/-- The pointer held after following `next` `k` times from `p` (`NULL` is absorbing). -/
def follow (s : State) : Nat → Option call_site → Option call_site
  | 0, p => p
  | _ + 1, none => none
  | k + 1, some v => follow s k (s.vars v).next

/-- Descriptor `v` is met when following `next` from `g_ro_vars`. -/
def Reachable (s : State) (v : call_site) : Prop :=
  ∃ k, follow s k s.g_ro_vars = some v

/-- What a module may do to this memory between program start and the traversal:
execute a registration site, or store a new string pointer into one of its cells. -/
inductive stmt where
  | register (v : call_site) (_ptr : ptr_arg)
  | store (c : Nat) (str : Option String)
deriving DecidableEq, Repr

/-- Whether the statement executes the registration site `v`. -/
def registers (v : call_site) : stmt → Bool
  | stmt.register w _ => decide (w = v)
  | stmt.store _ _ => false

/-- Whether the statement stores into cell `c`. -/
def stores (c : Nat) : stmt → Bool
  | stmt.register _ _ => false
  | stmt.store d _ => decide (d = c)

/-- One statement. -/
def exec : stmt → State → State
  | stmt.register v p, s => REGISTER_RO_VAR v p s
  | stmt.store c str, s => store_cell c str s

/-- A straight-line sequence of statements, first element first. -/
def run (prog : List stmt) (s : State) : State :=
  prog.foldl (fun st i => exec i st) s

/-! ## The device initialiser

`init_device` is only declared by the header; its body, the scripting runtime
`struct v7` and the platform hook live outside it. -/

/-- Modelled from the spec: the answer of the scripting runtime to one bind request
(§4.2, §7): the value is bound, the bind is rejected (e.g. resource exhaustion) and
the walk goes on, or the runtime signals a fatal condition.  The runtime and its
binding interface (`v7/v7.h`) are missing. -/
inductive bind_status where
  | ok
  | rejected
  | fatal
deriving DecidableEq, Repr

/-- Modelled from the spec: the scripting runtime instance `struct v7` (missing:
`v7/v7.h`), reduced to what the registry mechanism puts into it: the read-only
global values bound so far, oldest first, each a name with the string snapshotted
for it. -/
structure v7 where
  ro_globals : List (Option String × Option String)
deriving DecidableEq, Repr

/-- Modelled from the spec: the runtime capability "bind an immutable named string
value into this runtime instance" (§6; missing: the binding function of `v7/v7.h`).
`verdict` is the decision of the runtime on the request; only an accepted request
adds a global. -/
def v7_bind (verdict : v7 → Option String → Option String → bind_status) (rt : v7)
    (name value : Option String) : bind_status × v7 :=
  match verdict rt name value with
  | bind_status.ok => (bind_status.ok, { ro_globals := rt.ro_globals ++ [(name, value)] })
  | bind_status.rejected => (bind_status.rejected, rt)
  | bind_status.fatal => (bind_status.fatal, rt)

/-- Modelled from the spec: step 2 of `initDevice` (§4.2; missing: the body of
`init_device`): walk the registry from pointer `p`, binding `name` to the current
`*ptr` of each descriptor; a rejected bind is remembered and the walk continues, a
fatal condition stops it.  The Boolean tells whether every bind so far was
accepted; `none` means the walk did not reach `NULL` within `fuel` descriptors. -/
def bind_ro_vars (verdict : v7 → Option String → Option String → bind_status) (s : State) :
    Nat → Option call_site → v7 → Bool → Option (Bool × v7)
  | _, none, rt, good => some (good, rt)
  | 0, some _, _, _ => none
  | fuel + 1, some v, rt, good =>
    match v7_bind verdict rt (s.vars v).name (deref s (s.vars v).ptr) with
    | (bind_status.ok, rt1) => bind_ro_vars verdict s fuel (s.vars v).next rt1 good
    | (bind_status.rejected, rt1) => bind_ro_vars verdict s fuel (s.vars v).next rt1 false
    | (bind_status.fatal, rt1) => some (false, rt1)

/-- Modelled from the spec: the status `initDevice` returns for each stage (§4.2 step 3,
§6: 0 = success, non-zero = failure code; missing: the body of `init_device`).  The
spec fixes no particular non-zero values. -/
def INIT_OK : Int := 0

/-- Modelled from the spec: the platform-failure status of `initDevice` (§7; missing:
the body of `init_device`). -/
def INIT_PLATFORM_FAILED : Int := 1

/-- Modelled from the spec: the aggregated binding-failure status of `initDevice`
(§7; missing: the body of `init_device`). -/
def INIT_BIND_FAILED : Int := 2

/-- Modelled from the spec: `initDevice(runtime)` (§4.2, §6, §7; missing: the body of
`init_device`, which the header only declares).  `device_init_platform` is the
platform hook (its status follows the convention of §6, 0 = success) and `s_cfg`
the system configuration handed to it unchanged.  Step 1 calls the hook and aborts
on failure before anything is bound; step 2 walks the registry; step 3 returns the
status.  The result is `none` when the walk does not end within `fuel`
descriptors. -/
def init_device {sys_config : Type} (device_init_platform : sys_config → Int)
    (s_cfg : sys_config) (verdict : v7 → Option String → Option String → bind_status)
    (fuel : Nat) (s : State) (rt : v7) : Option (Int × v7) :=
  if device_init_platform s_cfg ≠ 0 then some (INIT_PLATFORM_FAILED, rt)
  else
    match bind_ro_vars verdict s fuel s.g_ro_vars rt true with
    | none => none
    | some (true, rt1) => some (INIT_OK, rt1)
    | some (false, rt1) => some (INIT_BIND_FAILED, rt1)

/-- The bind request that the walk of `init_device` makes for descriptor `v`: its `name`
and the current value of `*ptr`. -/
def request (s : State) (v : call_site) : Option String × Option String :=
  ((s.vars v).name, deref s (s.vars v).ptr)

/-- Whether the runtime, starting from `rt`, accepts each request of the list when they
are made one after the other (each accepted request adds its global before the next one
is made).  Nothing is said of requests that are not in the list. -/
def accepts_all (verdict : v7 → Option String → Option String → bind_status) :
    v7 → List (Option String × Option String) → Bool
  | _, [] => true
  | rt, (n, x) :: rest =>
    decide (verdict rt n x = bind_status.ok) &&
      accepts_all verdict { ro_globals := rt.ro_globals ++ [(n, x)] } rest

/-! ## Concrete data used to evaluate the definitions -/

/-- The site `REGISTER_RO_VAR(fw_version, ...)`. -/
def fw_version : call_site := { id := 0, name := "fw_version" }

/-- The site `REGISTER_RO_VAR(board_id, ...)`. -/
def board_id : call_site := { id := 1, name := "board_id" }

/-- A second site whose name argument is also `fw_version`. -/
def fw_version_again : call_site := { id := 2, name := "fw_version" }

/-- Cell 0 points to "1.2.3", cell 1 to "rev-A", every other cell is `NULL`. -/
def sample_cells : Nat → Option String :=
  fun c => if c = 0 then some "1.2.3" else if c = 1 then some "rev-A" else none

/-- Register `fw_version` (cell 0) and then `board_id` (cell 1). -/
def sample_regs : List (call_site × ptr_arg) :=
  [(fw_version, cell_arg 0), (board_id, cell_arg 1)]

/-- The registry after `sample_regs`, started from the empty registry. -/
def sample_registry : State := register_all sample_regs (boot sample_cells)

/-! ## Basic facts about one registration -/

theorem REGISTER_RO_VAR_head (v : call_site) (p : ptr_arg) (s : State) :
    (REGISTER_RO_VAR v p s).g_ro_vars = some v := rfl

theorem REGISTER_RO_VAR_cells (v : call_site) (p : ptr_arg) (s : State) :
    (REGISTER_RO_VAR v p s).cells = s.cells := rfl

theorem REGISTER_RO_VAR_self (v : call_site) (p : ptr_arg) (s : State) :
    (REGISTER_RO_VAR v p s).vars v =
      { next := s.g_ro_vars, name := some v.name, ptr := in_expansion v p } := by
  simp [REGISTER_RO_VAR]

theorem REGISTER_RO_VAR_other (v w : call_site) (p : ptr_arg) (s : State) (h : w ≠ v) :
    (REGISTER_RO_VAR v p s).vars w = s.vars w := by
  simp [REGISTER_RO_VAR, Function.update_noteq h]

/-! ## Walking the chain -/

theorem walk_null (s : State) (fuel : Nat) : walk s fuel none = some [] := by
  cases fuel <;> rfl

theorem walk_succ (s : State) (fuel : Nat) (v : call_site) :
    walk s (fuel + 1) (some v) = (walk s fuel (s.vars v).next).map (fun l => v :: l) := rfl

theorem walk_fuel_mono (s : State) :
    ∀ (fuel : Nat) (p : Option call_site) (l : List call_site),
      walk s fuel p = some l → ∀ more, fuel ≤ more → walk s more p = some l := by
  intro fuel
  induction fuel with
  | zero =>
    intro p l h more _
    cases p with
    | none => rw [walk_null] at h ⊢; exact h
    | some v => simp [walk] at h
  | succ n ih =>
    intro p l h more hle
    cases p with
    | none => rw [walk_null] at h ⊢; exact h
    | some v =>
      obtain ⟨m, rfl⟩ : ∃ m, more = m + 1 := ⟨more - 1, by omega⟩
      rw [walk_succ] at h ⊢
      cases hw : walk s n (s.vars v).next with
      | none => rw [hw] at h; simp at h
      | some l1 =>
        rw [hw] at h
        rw [ih _ _ hw m (by omega)]
        exact h

theorem walk_register_frame (s : State) (v : call_site) (q : ptr_arg) :
    ∀ (fuel : Nat) (p : Option call_site) (l : List call_site),
      walk s fuel p = some l → v ∉ l → walk (REGISTER_RO_VAR v q s) fuel p = some l := by
  intro fuel
  induction fuel with
  | zero =>
    intro p l h _
    cases p with
    | none => rw [walk_null] at h ⊢; exact h
    | some w => simp [walk] at h
  | succ n ih =>
    intro p l h hv
    cases p with
    | none => rw [walk_null] at h ⊢; exact h
    | some w =>
      rw [walk_succ] at h ⊢
      cases hw : walk s n (s.vars w).next with
      | none => rw [hw] at h; simp at h
      | some l1 =>
        rw [hw] at h
        simp only [Option.map_some', Option.some.injEq] at h
        subst h
        have hne : w ≠ v := fun e => hv (by simp [e])
        have hv1 : v ∉ l1 := fun e => hv (List.mem_cons_of_mem _ e)
        rw [REGISTER_RO_VAR_other v w q s hne, ih _ _ hw hv1]
        rfl

theorem traverse_register_fresh (s : State) (v : call_site) (q : ptr_arg) (fuel : Nat)
    (l : List call_site) (h : traverse s fuel = some l) (hv : v ∉ l) :
    traverse (REGISTER_RO_VAR v q s) (fuel + 1) = some (v :: l) := by
  unfold traverse at h ⊢
  rw [REGISTER_RO_VAR_head, walk_succ, REGISTER_RO_VAR_self]
  simp only
  rw [walk_register_frame s v q fuel _ l h hv]
  rfl

theorem register_all_snoc (regs : List (call_site × ptr_arg)) (r : call_site × ptr_arg)
    (s : State) :
    register_all (regs ++ [r]) s = REGISTER_RO_VAR r.1 r.2 (register_all regs s) := by
  simp [register_all, List.foldl_append]

theorem traverse_register_all (regs : List (call_site × ptr_arg)) (s : State)
    (hs : s.g_ro_vars = none) (hnd : (regs.map Prod.fst).Nodup) :
    traverse (register_all regs s) regs.length = some (regs.map Prod.fst).reverse := by
  induction regs using List.reverseRecOn with
  | nil => simp [register_all, traverse, hs, walk]
  | append_singleton l r ih =>
    rw [List.map_append, List.nodup_append] at hnd
    obtain ⟨hl, _, hdisj⟩ := hnd
    have hfresh : r.1 ∉ (l.map Prod.fst).reverse := by
      intro hmem
      exact hdisj (List.mem_reverse.mp hmem) (by simp) 
    rw [register_all_snoc, List.length_append, List.length_singleton,
      traverse_register_fresh _ r.1 r.2 _ _ (ih hl) hfresh]
    simp

theorem traverse_register_all_fuel (regs : List (call_site × ptr_arg)) (s : State)
    (hs : s.g_ro_vars = none) (hnd : (regs.map Prod.fst).Nodup) (fuel : Nat)
    (hfuel : regs.length ≤ fuel) :
    traverse (register_all regs s) fuel = some (regs.map Prod.fst).reverse :=
  walk_fuel_mono _ _ _ _ (traverse_register_all regs s hs hnd) fuel hfuel

/-! ## Following `next` pointer by pointer -/

theorem follow_null (s : State) (k : Nat) : follow s k none = none := by
  cases k <;> rfl

theorem follow_succ (s : State) (k : Nat) (v : call_site) :
    follow s (k + 1) (some v) = follow s k (s.vars v).next := rfl

theorem follow_register_frame (s : State) (v : call_site) (q : ptr_arg) :
    ∀ (k : Nat) (p : Option call_site), (∀ j, follow s j p ≠ some v) →
      follow (REGISTER_RO_VAR v q s) k p = follow s k p := by
  intro k
  induction k with
  | zero => intro p _; rfl
  | succ n ih =>
    intro p hp
    cases p with
    | none => rw [follow_null, follow_null]
    | some w =>
      have hne : w ≠ v := fun e => hp 0 (by simp [follow, e])
      rw [follow_succ, follow_succ, REGISTER_RO_VAR_other v w q s hne]
      exact ih _ (fun j => by have := hp (j + 1); rwa [follow_succ] at this)

theorem mem_walk_iff_follow (s : State) (w : call_site) :
    ∀ (fuel : Nat) (p : Option call_site) (l : List call_site),
      walk s fuel p = some l → (w ∈ l ↔ ∃ k, follow s k p = some w) := by
  intro fuel
  induction fuel with
  | zero =>
    intro p l h
    cases p with
    | none =>
      rw [walk_null] at h
      cases h
      simp [follow_null]
    | some v => simp [walk] at h
  | succ n ih =>
    intro p l h
    cases p with
    | none =>
      rw [walk_null] at h
      cases h
      simp [follow_null]
    | some v =>
      rw [walk_succ] at h
      cases hw : walk s n (s.vars v).next with
      | none => rw [hw] at h; simp at h
      | some l1 =>
        rw [hw] at h
        simp only [Option.map_some', Option.some.injEq] at h
        subst h
        rw [List.mem_cons, ih _ _ hw]
        constructor
        · rintro (rfl | ⟨k, hk⟩)
          · exact ⟨0, rfl⟩
          · exact ⟨k + 1, by rw [follow_succ]; exact hk⟩
        · rintro ⟨k, hk⟩
          cases k with
          | zero => left; simpa [follow] using hk.symm
          | succ k => right; exact ⟨k, by rwa [follow_succ] at hk⟩

theorem reachable_iff_mem (s : State) (w : call_site) (fuel : Nat) (l : List call_site)
    (h : traverse s fuel = some l) : Reachable s w ↔ w ∈ l :=
  (mem_walk_iff_follow s w fuel _ l h).symm

theorem follow_add (s : State) :
    ∀ (a b : Nat) (p : Option call_site), follow s (a + b) p = follow s b (follow s a p) := by
  intro a
  induction a with
  | zero => intro b p; simp [follow]
  | succ n ih =>
    intro b p
    cases p with
    | none => rw [follow_null, follow_null, follow_null]
    | some v =>
      rw [show n + 1 + b = (n + b) + 1 by omega, follow_succ, follow_succ]
      exact ih b _

theorem follow_null_of_le (s : State) (p : Option call_site) (j k : Nat) (hjk : j ≤ k)
    (h : follow s j p = none) : follow s k p = none := by
  obtain ⟨d, rfl⟩ := Nat.exists_eq_add_of_le hjk
  rw [follow_add, h, follow_null]

theorem follow_walk_end (s : State) :
    ∀ (fuel : Nat) (p : Option call_site) (l : List call_site),
      walk s fuel p = some l → follow s l.length p = none := by
  intro fuel
  induction fuel with
  | zero =>
    intro p l h
    cases p with
    | none => rw [follow_null]
    | some v => simp [walk] at h
  | succ n ih =>
    intro p l h
    cases p with
    | none => rw [follow_null]
    | some v =>
      rw [walk_succ] at h
      cases hw : walk s n (s.vars v).next with
      | none => rw [hw] at h; simp at h
      | some l1 =>
        rw [hw] at h
        simp only [Option.map_some', Option.some.injEq] at h
        subst h
        rw [List.length_cons, follow_succ]
        exact ih _ _ hw

/-- A pointer that comes back to itself after `m + 1` steps never leads to `NULL`. -/
theorem follow_cycle (s : State) (v : call_site) (m : Nat)
    (h : follow s (m + 1) (some v) = some v) : ∀ k, follow s k (some v) ≠ none := by
  have hrep : ∀ n, follow s (n * (m + 1)) (some v) = some v := by
    intro n
    induction n with
    | zero => simp [follow]
    | succ n ih => rw [Nat.succ_mul, follow_add, ih, h]
  intro k hk
  have hle : k ≤ k * (m + 1) := Nat.le_mul_of_pos_right k (Nat.succ_pos m)
  have := follow_null_of_le s (some v) k _ hle hk
  rw [hrep] at this
  cases this

theorem follow_register_frame_upto (s : State) (v : call_site) (q : ptr_arg) :
    ∀ (k : Nat) (p : Option call_site), (∀ j, j < k → follow s j p ≠ some v) →
      follow (REGISTER_RO_VAR v q s) k p = follow s k p := by
  intro k
  induction k with
  | zero => intro p _; rfl
  | succ n ih =>
    intro p hp
    cases p with
    | none => rw [follow_null, follow_null]
    | some w =>
      have hne : w ≠ v := fun e => hp 0 (Nat.succ_pos n) (by simp [follow, e])
      rw [follow_succ, follow_succ, REGISTER_RO_VAR_other v w q s hne]
      exact ih _ (fun j hj => by
        have := hp (j + 1) (by omega)
        rwa [follow_succ] at this)

/-- Executing the site of a descriptor that is already linked closes a cycle. -/
theorem follow_register_reachable (s : State) (v : call_site) (q : ptr_arg)
    (h : Reachable s v) :
    ∀ k, follow (REGISTER_RO_VAR v q s) k (REGISTER_RO_VAR v q s).g_ro_vars ≠ none := by
  classical
  have hmin : ∀ j, j < Nat.find h → follow s j s.g_ro_vars ≠ some v :=
    fun j hj => Nat.find_min h hj
  have hback : follow (REGISTER_RO_VAR v q s) (Nat.find h + 1) (some v) = some v := by
    rw [follow_succ, REGISTER_RO_VAR_self]
    simp only
    rw [follow_register_frame_upto s v q _ _ hmin]
    exact Nat.find_spec h
  rw [REGISTER_RO_VAR_head]
  exact follow_cycle _ v _ hback

/-- A chain that never reaches `NULL` still never reaches it after one more execution of
the macro, whatever the site. -/
theorem follow_register_nonterminating (s : State) (v : call_site) (q : ptr_arg)
    (h : ∀ k, follow s k s.g_ro_vars ≠ none) :
    ∀ k, follow (REGISTER_RO_VAR v q s) k (REGISTER_RO_VAR v q s).g_ro_vars ≠ none := by
  by_cases hr : Reachable s v
  · exact follow_register_reachable s v q hr
  · have hnot : ∀ j, follow s j s.g_ro_vars ≠ some v := fun j hj => hr ⟨j, hj⟩
    intro k
    rw [REGISTER_RO_VAR_head]
    cases k with
    | zero => simp [follow]
    | succ k =>
      rw [follow_succ, REGISTER_RO_VAR_self]
      simp only
      rw [follow_register_frame s v q k _ hnot]
      exact h k

theorem traverse_none_of_follow (s : State) (h : ∀ k, follow s k s.g_ro_vars ≠ none)
    (fuel : Nat) : traverse s fuel = none := by
  cases ht : traverse s fuel with
  | none => rfl
  | some l => exact absurd (follow_walk_end s fuel _ l ht) (h _)

/-- Executing some site twice in a sequence of registrations leaves a chain that never
reaches `NULL`. -/
theorem follow_register_all_dup (regs : List (call_site × ptr_arg)) (s : State)
    (hs : s.g_ro_vars = none) (hdup : ¬ (regs.map Prod.fst).Nodup) :
    ∀ k, follow (register_all regs s) k (register_all regs s).g_ro_vars ≠ none := by
  induction regs using List.reverseRecOn with
  | nil => simp at hdup
  | append_singleton l r ih =>
    rw [register_all_snoc]
    by_cases hl : (l.map Prod.fst).Nodup
    · have hmem : r.1 ∈ l.map Prod.fst := by
        by_contra hnot
        apply hdup
        rw [List.map_append, List.nodup_append]
        refine ⟨hl, by simp, ?_⟩
        intro a ha hb
        simp only [List.map_cons, List.map_nil, List.mem_singleton] at hb
        exact hnot (hb ▸ ha)
      have hreach : Reachable (register_all l s) r.1 :=
        (reachable_iff_mem _ _ _ _ (traverse_register_all l s hs hl)).mpr
          (List.mem_reverse.mpr hmem)
      exact follow_register_reachable _ r.1 r.2 hreach
    · exact follow_register_nonterminating _ r.1 r.2 (ih hl)

/-! ## The registry as a stack -/

/-- C2: one execution of `REGISTER_RO_VAR` is a total state transformer (no failure
result, no new storage), after which `g_ro_vars` is the site's descriptor with `name` the
text of the name argument and `next` the head as it was before; for an argument in which
`v` does not occur `ptr` is exactly the reference passed in.  But the argument text is
evaluated inside the block that declares `v`: `REGISTER_RO_VAR(fw_version, &v.name)`,
written in a module whose own `v.name` is cell 0 (holding "1.2.3"), records the address of
the descriptor's own `name` member, so that reading through `ptr` gives "fw_version";
and `REGISTER_RO_VAR(fw_version, &v)`, written where the module's `v` is cell 0, records
the address of the descriptor. -/
theorem register_records_captured_v :
    (∀ (v : call_site) (p : char_pp) (s : State),
      (REGISTER_RO_VAR v (ptr_arg.value p) s).g_ro_vars = some v ∧
      (REGISTER_RO_VAR v (ptr_arg.value p) s).vars v =
        { next := s.g_ro_vars, name := some v.name, ptr := p }) ∧
    at_caller (ptr_arg.addr_v_name (some (char_pp.cell 0))) = some (char_pp.cell 0) ∧
    (REGISTER_RO_VAR fw_version (ptr_arg.addr_v_name (some (char_pp.cell 0)))
        (boot sample_cells)).g_ro_vars = some fw_version ∧
    (REGISTER_RO_VAR fw_version (ptr_arg.addr_v_name (some (char_pp.cell 0)))
        (boot sample_cells)).vars fw_version =
      { next := none, name := some "fw_version", ptr := char_pp.var_name fw_version } ∧
    ((REGISTER_RO_VAR fw_version (ptr_arg.addr_v_name (some (char_pp.cell 0)))
        (boot sample_cells)).vars fw_version).ptr ≠ char_pp.cell 0 ∧
    deref (REGISTER_RO_VAR fw_version (ptr_arg.addr_v_name (some (char_pp.cell 0)))
        (boot sample_cells)) (char_pp.cell 0) = some "1.2.3" ∧
    deref (REGISTER_RO_VAR fw_version (ptr_arg.addr_v_name (some (char_pp.cell 0)))
        (boot sample_cells))
      ((REGISTER_RO_VAR fw_version (ptr_arg.addr_v_name (some (char_pp.cell 0)))
        (boot sample_cells)).vars fw_version).ptr = some "fw_version" ∧
    at_caller (ptr_arg.addr_v (some (char_pp.cell 0))) = some (char_pp.cell 0) ∧
    ((REGISTER_RO_VAR fw_version (ptr_arg.addr_v (some (char_pp.cell 0)))
        (boot sample_cells)).vars fw_version).ptr = char_pp.var fw_version :=
  ⟨fun v p s => ⟨rfl, REGISTER_RO_VAR_self v (ptr_arg.value p) s⟩,
    rfl, rfl, by decide, by decide, by decide, by decide, rfl, by decide⟩

/-- C1 as stated fails: executing the site `fw_version`, then `board_id`, then
`fw_version` again from the empty registry leaves a chain on which no traversal ever
reaches `NULL`, so no traversal yields the registrations in reverse order. -/
theorem reverse_order_fails_on_repeated_site :
    ¬ ∃ fuel l, traverse (register_all
        [(fw_version, cell_arg 0), (board_id, cell_arg 1), (fw_version, cell_arg 0)]
        (boot sample_cells)) fuel = some l := by
  rintro ⟨fuel, l, h⟩
  have hnone := traverse_none_of_follow _
    (follow_register_all_dup
      [(fw_version, cell_arg 0), (board_id, cell_arg 1), (fw_version, cell_arg 0)]
      (boot sample_cells) rfl (by decide)) fuel
  rw [hnone] at h
  cases h

/-- C1 (amended): for every sequence of registrations from pairwise distinct sites
applied to an empty registry, the traversal from `g_ro_vars` reaches `NULL` (any fuel
of at least the number of registrations is enough) and yields the registered
descriptors in exact reverse-registration order: the last registered one is visited
first and the first registered one is visited last. -/
theorem traverse_reverse_registration_order (regs : List (call_site × ptr_arg))
    (s : State) (hs : s.g_ro_vars = none) (hnd : (regs.map Prod.fst).Nodup) :
    (∀ fuel, regs.length ≤ fuel →
      traverse (register_all regs s) fuel = some (regs.map Prod.fst).reverse) ∧
    (regs.map Prod.fst).reverse.head? = (regs.map Prod.fst).getLast? ∧
    (regs.map Prod.fst).reverse.getLast? = (regs.map Prod.fst).head? :=
  ⟨fun fuel hfuel => traverse_register_all_fuel regs s hs hnd fuel hfuel,
    List.head?_reverse _, List.getLast?_reverse _⟩

/-- Witness for C1: registering `fw_version` and then `board_id` yields the traversal
`[board_id, fw_version]`. -/
theorem traverse_reverse_registration_order_witness :
    (boot sample_cells).g_ro_vars = none ∧ (sample_regs.map Prod.fst).Nodup ∧
    traverse (register_all sample_regs (boot sample_cells)) 2 =
      some [board_id, fw_version] :=
  ⟨rfl, by decide,
    (traverse_reverse_registration_order sample_regs (boot sample_cells) rfl
      (by decide)).1 2 (by decide)⟩

/-- C6 as stated fails: executing the site `fw_version` twice from the empty registry
leaves a chain on which no traversal reaches `NULL`, whatever the fuel. -/
theorem traversal_not_finite_on_repeated_site :
    ¬ ∃ fuel l, traverse (register_all [(fw_version, cell_arg 0), (fw_version, cell_arg 0)]
        (boot sample_cells)) fuel = some l := by
  rintro ⟨fuel, l, h⟩
  have hnone := traverse_none_of_follow _
    (follow_register_all_dup [(fw_version, cell_arg 0), (fw_version, cell_arg 0)]
      (boot sample_cells) rfl (by decide)) fuel
  rw [hnone] at h
  cases h

/-- C6 (amended): for a registry built from the empty registry by a sequence of
executions of `REGISTER_RO_VAR`, the traversal from `g_ro_vars` is finite exactly when no
site is executed more than once: then it reaches `NULL` after visiting as many
descriptors as there were executions, and otherwise it never reaches `NULL`. -/
theorem traversal_finite_iff_sites_distinct (regs : List (call_site × ptr_arg))
    (s : State) (hs : s.g_ro_vars = none) :
    ((regs.map Prod.fst).Nodup →
      ∃ fuel l, traverse (register_all regs s) fuel = some l ∧ l.length = regs.length) ∧
    (¬ (regs.map Prod.fst).Nodup → ∀ fuel, traverse (register_all regs s) fuel = none) := by
  constructor
  · intro hnd
    exact ⟨regs.length, _, traverse_register_all regs s hs hnd, by simp⟩
  · intro hdup fuel
    exact traverse_none_of_follow _ (follow_register_all_dup regs s hs hdup) fuel

/-- Witness for C6: the two sample registrations give a traversal of two descriptors. -/
theorem traversal_finite_iff_sites_distinct_witness :
    (boot sample_cells).g_ro_vars = none ∧
    ∃ fuel l, traverse (register_all sample_regs (boot sample_cells)) fuel = some l ∧
      l.length = sample_regs.length :=
  ⟨rfl, (traversal_finite_iff_sites_distinct sample_regs (boot sample_cells) rfl).1
    (by decide)⟩

/-- C8: registering a descriptor that is not reachable from `g_ro_vars` writes only the
head and that descriptor: every other descriptor and every cell is unchanged, so the
chain after the registration is the new descriptor followed by exactly the chain
before it (pointer by pointer, and as a list one longer when the chain is finite). -/
theorem registration_frame_effect (v : call_site) (_ptr : ptr_arg) (s : State)
    (hv : ¬ Reachable s v) :
    (REGISTER_RO_VAR v _ptr s).g_ro_vars = some v ∧
    (∀ w, w ≠ v → (REGISTER_RO_VAR v _ptr s).vars w = s.vars w) ∧
    (REGISTER_RO_VAR v _ptr s).cells = s.cells ∧
    (∀ k, follow (REGISTER_RO_VAR v _ptr s) (k + 1) (REGISTER_RO_VAR v _ptr s).g_ro_vars =
      follow s k s.g_ro_vars) ∧
    (∀ fuel l, traverse s fuel = some l →
      traverse (REGISTER_RO_VAR v _ptr s) (fuel + 1) = some (v :: l) ∧
      (v :: l).length = l.length + 1) := by
  refine ⟨rfl, fun w hw => REGISTER_RO_VAR_other v w _ptr s hw, rfl, ?_, ?_⟩
  · intro k
    rw [REGISTER_RO_VAR_head, follow_succ, REGISTER_RO_VAR_self]
    exact follow_register_frame s v _ptr k _ (fun j hj => hv ⟨j, hj⟩)
  · intro fuel l hl
    refine ⟨traverse_register_fresh s v _ptr fuel l hl ?_, rfl⟩
    exact fun hmem => hv ((reachable_iff_mem s v fuel l hl).mpr hmem)

/-- Witness for C8: `fw_version_again` is not linked in the sample registry, and
registering it puts it in front of `[board_id, fw_version]`. -/
theorem registration_frame_effect_witness :
    ¬ Reachable sample_registry fw_version_again ∧
    traverse (REGISTER_RO_VAR fw_version_again (cell_arg 0) sample_registry) 3 =
      some [fw_version_again, board_id, fw_version] := by
  have hun : ¬ Reachable sample_registry fw_version_again := by
    rw [reachable_iff_mem sample_registry fw_version_again 2 [board_id, fw_version] (by rfl)]
    decide
  exact ⟨hun, ((registration_frame_effect fw_version_again (cell_arg 0) sample_registry hun).2.2.2.2 2
    [board_id, fw_version] (by rfl)).1⟩

/-- C9: executing again the site whose descriptor `v` is the head sets `v.next = v`;
from then on following `next` from `g_ro_vars` stays on `v` for ever, no traversal reaches
`NULL`, no descriptor other than `v` is reachable, and no new descriptor was added
(every other descriptor is untouched). -/
theorem reregister_head_cycles (v : call_site) (_ptr : ptr_arg) (s : State)
    (hhead : s.g_ro_vars = some v) :
    ((REGISTER_RO_VAR v _ptr s).vars v).next = some v ∧
    (REGISTER_RO_VAR v _ptr s).g_ro_vars = some v ∧
    (∀ w, w ≠ v → (REGISTER_RO_VAR v _ptr s).vars w = s.vars w) ∧
    (∀ k, follow (REGISTER_RO_VAR v _ptr s) k (REGISTER_RO_VAR v _ptr s).g_ro_vars = some v) ∧
    (∀ fuel, traverse (REGISTER_RO_VAR v _ptr s) fuel = none) ∧
    (∀ w, w ≠ v → ¬ Reachable (REGISTER_RO_VAR v _ptr s) w) := by
  have hnext : ((REGISTER_RO_VAR v _ptr s).vars v).next = some v := by
    rw [REGISTER_RO_VAR_self, hhead]
  have hstay : ∀ k, follow (REGISTER_RO_VAR v _ptr s) k (some v) = some v := by
    intro k
    induction k with
    | zero => rfl
    | succ k ih => rw [follow_succ, hnext, ih]
  refine ⟨hnext, rfl, fun w hw => REGISTER_RO_VAR_other v w _ptr s hw, hstay, ?_, ?_⟩
  · intro fuel
    apply traverse_none_of_follow
    intro k
    rw [REGISTER_RO_VAR_head, hstay k]
    exact Option.some_ne_none v
  · rintro w hw ⟨k, hk⟩
    rw [REGISTER_RO_VAR_head, hstay k] at hk
    exact hw (Option.some.inj hk).symm

/-- Witness for C9: in the sample registry the head is `board_id`; executing its site
again makes the walk stay on `board_id`, and `fw_version` is no longer reachable. -/
theorem reregister_head_cycles_witness :
    sample_registry.g_ro_vars = some board_id ∧
    Reachable sample_registry fw_version ∧
    ((REGISTER_RO_VAR board_id (cell_arg 1) sample_registry).vars board_id).next =
      some board_id ∧
    ¬ Reachable (REGISTER_RO_VAR board_id (cell_arg 1) sample_registry) fw_version :=
  ⟨rfl, ⟨1, rfl⟩,
    (reregister_head_cycles board_id (cell_arg 1) sample_registry rfl).1,
    (reregister_head_cycles board_id (cell_arg 1) sample_registry rfl).2.2.2.2.2 fw_version
      (by decide)⟩

/-- C7: registration checks no names.  In a registry that links a descriptor `a` named
`n`, registering a descriptor `b` that is not linked yet and carries the same name `n`
goes through: `b` becomes the head, `a` is still met (one step later than before), both
carry the name `n`, and a finite traversal `l` becomes `b :: l` with `a` in `l`. -/
theorem register_duplicate_name (a b : call_site) (_ptr : ptr_arg) (s : State)
    (n : String) (ha : Reachable s a) (han : (s.vars a).name = some n)
    (hb : ¬ Reachable s b) (hbn : b.name = n) :
    a ≠ b ∧
    (REGISTER_RO_VAR b _ptr s).g_ro_vars = some b ∧
    ((REGISTER_RO_VAR b _ptr s).vars b).name = some n ∧
    ((REGISTER_RO_VAR b _ptr s).vars a).name = some n ∧
    (∀ k, follow s k s.g_ro_vars = some a →
      follow (REGISTER_RO_VAR b _ptr s) (k + 1) (REGISTER_RO_VAR b _ptr s).g_ro_vars =
        some a) ∧
    (∀ fuel l, traverse s fuel = some l →
      traverse (REGISTER_RO_VAR b _ptr s) (fuel + 1) = some (b :: l) ∧ a ∈ l ∧
      (b :: l).indexOf b < (b :: l).indexOf a) := by
  have hab : a ≠ b := fun e => hb (e ▸ ha)
  refine ⟨hab, rfl, ?_, ?_, ?_, ?_⟩
  · rw [REGISTER_RO_VAR_self, hbn]
  · rw [REGISTER_RO_VAR_other b a _ptr s hab, han]
  · intro k hk
    rw [REGISTER_RO_VAR_head, follow_succ, REGISTER_RO_VAR_self]
    simp only
    rw [follow_register_frame s b _ptr k _ (fun j hj => hb ⟨j, hj⟩)]
    exact hk
  · intro fuel l hl
    have hbl : b ∉ l := fun hmem => hb ((reachable_iff_mem s b fuel l hl).mpr hmem)
    have hal : a ∈ l := (reachable_iff_mem s a fuel l hl).mp ha
    refine ⟨traverse_register_fresh s b _ptr fuel l hl hbl, hal, ?_⟩
    rw [List.indexOf_cons_self, List.indexOf_cons_ne _ (Ne.symm hab)]
    exact Nat.succ_pos _

/-- Witness for C7: the sample registry links `fw_version`; a second site with the
name `fw_version` registers fine and is visited before the first one. -/
theorem register_duplicate_name_witness :
    Reachable sample_registry fw_version ∧
    (sample_registry.vars fw_version).name = some "fw_version" ∧
    ¬ Reachable sample_registry fw_version_again ∧
    fw_version_again.name = "fw_version" ∧
    traverse (REGISTER_RO_VAR fw_version_again (cell_arg 2) sample_registry) 3 =
      some [fw_version_again, board_id, fw_version] := by
  have hun : ¬ Reachable sample_registry fw_version_again := by
    rw [reachable_iff_mem sample_registry fw_version_again 2 [board_id, fw_version] (by rfl)]
    decide
  exact ⟨⟨1, rfl⟩, by rfl, hun, rfl,
    ((register_duplicate_name fw_version fw_version_again (cell_arg 2) sample_registry
      "fw_version" ⟨1, rfl⟩ (by rfl) hun rfl).2.2.2.2.2 2 [board_id, fw_version]
      (by rfl)).1⟩

/-! ## Value cells are observed, not copied -/

theorem run_cons (i : stmt) (prog : List stmt) (s : State) :
    run (i :: prog) s = run prog (exec i s) := rfl

theorem run_append (p1 p2 : List stmt) (s : State) :
    run (p1 ++ p2) s = run p2 (run p1 s) := by
  simp [run, List.foldl_append]

theorem run_vars_of_not_registered (v : call_site) (prog : List stmt) :
    ∀ s : State, (∀ i ∈ prog, registers v i = false) →
      (run prog s).vars v = s.vars v := by
  induction prog with
  | nil => intro s _; rfl
  | cons i rest ih =>
    intro s h
    rw [run_cons, ih _ (fun j hj => h j (List.mem_cons_of_mem _ hj))]
    cases i with
    | register w p =>
      have hne : v ≠ w := fun e => by
        have := h _ (List.mem_cons_self _ _)
        simp [registers, e] at this
      exact REGISTER_RO_VAR_other w v p s hne
    | store c str => rfl

theorem run_cells_of_not_stored (c : Nat) (prog : List stmt) :
    ∀ s : State, (∀ i ∈ prog, stores c i = false) →
      (run prog s).cells c = s.cells c := by
  induction prog with
  | nil => intro s _; rfl
  | cons i rest ih =>
    intro s h
    rw [run_cons, ih _ (fun j hj => h j (List.mem_cons_of_mem _ hj))]
    cases i with
    | register w p => rfl
    | store d str =>
      have hne : c ≠ d := fun e => by
        have := h _ (List.mem_cons_self _ _)
        simp [stores, e] at this
      simp [exec, store_cell, Function.update_noteq hne]

/-- C5 as stated fails: `fw_version` is registered with cell 0, the module changes
cell 0 to "1.2.4", and before the traversal the same site is executed again, its argument
now denoting cell 2: the descriptor points to cell 2 and the value read through its `ptr`
is `NULL`, not the changed string. -/
theorem ptr_follows_last_execution_of_site :
    (run [stmt.store 0 (some "1.2.4"), stmt.register fw_version (cell_arg 2)]
        (REGISTER_RO_VAR fw_version (cell_arg 0) (boot sample_cells))).cells 0 =
      some "1.2.4" ∧
    ((run [stmt.store 0 (some "1.2.4"), stmt.register fw_version (cell_arg 2)]
        (REGISTER_RO_VAR fw_version (cell_arg 0) (boot sample_cells))).vars fw_version).ptr =
      char_pp.cell 2 ∧
    deref (run [stmt.store 0 (some "1.2.4"), stmt.register fw_version (cell_arg 2)]
        (REGISTER_RO_VAR fw_version (cell_arg 0) (boot sample_cells)))
      ((run [stmt.store 0 (some "1.2.4"), stmt.register fw_version (cell_arg 2)]
        (REGISTER_RO_VAR fw_version (cell_arg 0) (boot sample_cells))).vars fw_version).ptr ≠
      some "1.2.4" :=
  ⟨by decide, by decide, by decide⟩

/-- C5 (amended): a registration records the reference to the cell, not the string in
it.  After `REGISTER_RO_VAR` at site `v` with an argument `&x` that does not name `v`,
`x` living in cell `c`, let the modules run any statements that do not execute site `v`
again, among them a store of `str` into `c`: the descriptor still points to `c`, and
dereferencing its `ptr` gives what `c` holds at that time; when no later statement
stores into `c` this is `str`, whatever `c` held at registration time (so not the old
string when `str` differs). -/
theorem ptr_observes_current_cell (v : call_site) (c : Nat) (str : Option String)
    (before after : List stmt) (s : State)
    (hv : ∀ i ∈ before ++ stmt.store c str :: after, registers v i = false) :
    ((run (before ++ stmt.store c str :: after)
        (REGISTER_RO_VAR v (cell_arg c) s)).vars v).ptr = char_pp.cell c ∧
    deref (run (before ++ stmt.store c str :: after) (REGISTER_RO_VAR v (cell_arg c) s))
      ((run (before ++ stmt.store c str :: after)
        (REGISTER_RO_VAR v (cell_arg c) s)).vars v).ptr =
      (run (before ++ stmt.store c str :: after) (REGISTER_RO_VAR v (cell_arg c) s)).cells c ∧
    ((∀ i ∈ after, stores c i = false) →
      deref (run (before ++ stmt.store c str :: after) (REGISTER_RO_VAR v (cell_arg c) s))
        ((run (before ++ stmt.store c str :: after)
          (REGISTER_RO_VAR v (cell_arg c) s)).vars v).ptr = str ∧
      (str ≠ s.cells c →
        deref (run (before ++ stmt.store c str :: after) (REGISTER_RO_VAR v (cell_arg c) s))
          ((run (before ++ stmt.store c str :: after)
            (REGISTER_RO_VAR v (cell_arg c) s)).vars v).ptr ≠ s.cells c)) := by
  have hvars : ((run (before ++ stmt.store c str :: after)
      (REGISTER_RO_VAR v (cell_arg c) s)).vars v).ptr = char_pp.cell c := by
    rw [run_vars_of_not_registered v _ _ hv, REGISTER_RO_VAR_self]
    rfl
  have hcur : deref (run (before ++ stmt.store c str :: after)
      (REGISTER_RO_VAR v (cell_arg c) s))
      ((run (before ++ stmt.store c str :: after)
        (REGISTER_RO_VAR v (cell_arg c) s)).vars v).ptr =
      (run (before ++ stmt.store c str :: after)
        (REGISTER_RO_VAR v (cell_arg c) s)).cells c := by
    rw [hvars]
    rfl
  refine ⟨hvars, hcur, fun hc => ?_⟩
  have hval : (run (before ++ stmt.store c str :: after)
      (REGISTER_RO_VAR v (cell_arg c) s)).cells c = str := by
    rw [run_append, run_cons, run_cells_of_not_stored c after _ hc]
    simp [exec, store_cell]
  exact ⟨hcur.trans hval, fun hne => by rw [hcur, hval]; exact hne⟩

/-- Witness for C5: `fw_version` is registered while cell 0 points to "1.2.3"; then
`board_id` is registered, cell 0 is changed to "1.2.4" and cell 1 is changed as well; the
value read through the descriptor of `fw_version` is "1.2.4". -/
theorem ptr_observes_current_cell_witness :
    (boot sample_cells).cells 0 = some "1.2.3" ∧
    (∀ i ∈ [stmt.register board_id (cell_arg 1)] ++ stmt.store 0 (some "1.2.4") ::
      [stmt.store 1 (some "rev-B")], registers fw_version i = false) ∧
    deref (run ([stmt.register board_id (cell_arg 1)] ++ stmt.store 0 (some "1.2.4") ::
          [stmt.store 1 (some "rev-B")])
        (REGISTER_RO_VAR fw_version (cell_arg 0) (boot sample_cells)))
      ((run ([stmt.register board_id (cell_arg 1)] ++ stmt.store 0 (some "1.2.4") ::
          [stmt.store 1 (some "rev-B")])
        (REGISTER_RO_VAR fw_version (cell_arg 0) (boot sample_cells))).vars fw_version).ptr =
      some "1.2.4" :=
  ⟨rfl, by decide,
    ((ptr_observes_current_cell fw_version 0 (some "1.2.4")
      [stmt.register board_id (cell_arg 1)] [stmt.store 1 (some "rev-B")] (boot sample_cells)
      (by decide)).2.2 (by decide)).1⟩

/-! ## The device initialiser -/

theorem walk_cells (s : State) (cells1 : Nat → Option String) :
    ∀ (fuel : Nat) (p : Option call_site),
      walk { s with cells := cells1 } fuel p = walk s fuel p := by
  intro fuel
  induction fuel with
  | zero => intro p; cases p <;> rfl
  | succ n ih =>
    intro p
    cases p with
    | none => rfl
    | some v => rw [walk_succ, walk_succ]; exact congrArg _ (ih _)

theorem bind_ro_vars_null (verdict : v7 → Option String → Option String → bind_status)
    (s : State) (fuel : Nat) (rt : v7) (good : Bool) :
    bind_ro_vars verdict s fuel none rt good = some (good, rt) := by
  cases fuel <;> rfl

/-- When the runtime accepts each request the walk makes, the binding walk adds, in the
order of the traversal, the name and the current `*ptr` of every descriptor. -/
theorem bind_ro_vars_accepted (verdict : v7 → Option String → Option String → bind_status)
    (s : State) :
    ∀ (fuel : Nat) (p : Option call_site) (l : List call_site) (rt : v7) (good : Bool),
      walk s fuel p = some l → accepts_all verdict rt (l.map (request s)) = true →
      bind_ro_vars verdict s fuel p rt good =
        some (good, { ro_globals := rt.ro_globals ++ l.map (request s) }) := by
  intro fuel
  induction fuel with
  | zero =>
    intro p l rt good h _
    cases p with
    | none =>
      rw [walk_null] at h
      cases h
      simp [bind_ro_vars_null]
    | some v => simp [walk] at h
  | succ n ih =>
    intro p l rt good h hacc
    cases p with
    | none =>
      rw [walk_null] at h
      cases h
      simp [bind_ro_vars_null]
    | some v =>
      rw [walk_succ] at h
      cases hw : walk s n (s.vars v).next with
      | none => rw [hw] at h; simp at h
      | some l1 =>
        rw [hw] at h
        simp only [Option.map_some', Option.some.injEq] at h
        subst h
        simp only [List.map_cons, request, accepts_all, Bool.and_eq_true,
          decide_eq_true_eq] at hacc
        obtain ⟨hok, hrest⟩ := hacc
        simp only [bind_ro_vars, v7_bind, hok]
        rw [ih _ _ _ _ hw hrest]
        simp [request]

/-- Whatever the runtime answers, a walk that reaches `NULL` gives a result: it keeps a
failure already recorded and adds at most one global per descriptor. -/
theorem bind_ro_vars_result (verdict : v7 → Option String → Option String → bind_status)
    (s : State) :
    ∀ (fuel : Nat) (p : Option call_site) (l : List call_site) (rt : v7) (good : Bool),
      walk s fuel p = some l →
      ∃ g rt1, bind_ro_vars verdict s fuel p rt good = some (g, rt1) ∧
        (good = false → g = false) ∧
        rt1.ro_globals.length ≤ rt.ro_globals.length + l.length := by
  intro fuel
  induction fuel with
  | zero =>
    intro p l rt good h
    cases p with
    | none => exact ⟨good, rt, bind_ro_vars_null _ _ _ _ _, id, Nat.le_add_right _ _⟩
    | some v => simp [walk] at h
  | succ n ih =>
    intro p l rt good h
    cases p with
    | none => exact ⟨good, rt, bind_ro_vars_null _ _ _ _ _, id, Nat.le_add_right _ _⟩
    | some v =>
      rw [walk_succ] at h
      cases hw : walk s n (s.vars v).next with
      | none => rw [hw] at h; simp at h
      | some l1 =>
        rw [hw] at h
        simp only [Option.map_some', Option.some.injEq] at h
        subst h
        simp only [bind_ro_vars, v7_bind]
        cases hv : verdict rt (s.vars v).name (deref s (s.vars v).ptr) with
        | ok =>
          obtain ⟨g, rt1, h1, h2, h3⟩ := ih _ _
            { ro_globals := rt.ro_globals ++ [((s.vars v).name, deref s (s.vars v).ptr)] }
            good hw
          refine ⟨g, rt1, h1, h2, ?_⟩
          simp only [List.length_append, List.length_cons, List.length_nil] at h3 ⊢
          omega
        | rejected =>
          obtain ⟨g, rt1, h1, h2, h3⟩ := ih _ _ rt false hw
          refine ⟨g, rt1, h1, fun _ => h2 rfl, ?_⟩
          simp only [List.length_cons]
          omega
        | fatal =>
          exact ⟨false, rt, rfl, fun _ => rfl, Nat.le_add_right _ _⟩

/-- When the runtime does not accept one of the requests the walk makes, the binding walk
records a failure and adds fewer globals than there are descriptors. -/
theorem bind_ro_vars_not_accepted
    (verdict : v7 → Option String → Option String → bind_status) (s : State) :
    ∀ (fuel : Nat) (p : Option call_site) (l : List call_site) (rt : v7) (good : Bool),
      walk s fuel p = some l → accepts_all verdict rt (l.map (request s)) = false →
      ∃ rt1, bind_ro_vars verdict s fuel p rt good = some (false, rt1) ∧
        rt1.ro_globals.length < rt.ro_globals.length + l.length := by
  intro fuel
  induction fuel with
  | zero =>
    intro p l rt good h hacc
    cases p with
    | none =>
      rw [walk_null] at h
      cases h
      simp [accepts_all] at hacc
    | some v => simp [walk] at h
  | succ n ih =>
    intro p l rt good h hacc
    cases p with
    | none =>
      rw [walk_null] at h
      cases h
      simp [accepts_all] at hacc
    | some v =>
      rw [walk_succ] at h
      cases hw : walk s n (s.vars v).next with
      | none => rw [hw] at h; simp at h
      | some l1 =>
        rw [hw] at h
        simp only [Option.map_some', Option.some.injEq] at h
        subst h
        simp only [List.map_cons, request, accepts_all, Bool.and_eq_false_iff,
          decide_eq_false_iff_not] at hacc
        simp only [bind_ro_vars, v7_bind]
        cases hv : verdict rt (s.vars v).name (deref s (s.vars v).ptr) with
        | ok =>
          rcases hacc with hno | hrest
          · exact absurd hv hno
          · obtain ⟨rt1, h1, h2⟩ := ih _ _ _ good hw hrest
            refine ⟨rt1, h1, ?_⟩
            simp only [List.length_append, List.length_cons, List.length_nil] at h2 ⊢
            omega
        | rejected =>
          obtain ⟨g, rt1, h1, h2, h3⟩ := bind_ro_vars_result verdict s n _ l1 rt false hw
          rw [h2 rfl] at h1
          refine ⟨rt1, h1, ?_⟩
          simp only [List.length_cons]
          omega
        | fatal =>
          refine ⟨rt, rfl, ?_⟩
          simp only [List.length_cons]
          omega

/-- A runtime that accepts no request is left as it was by the binding walk. -/
theorem bind_ro_vars_refusing (verdict : v7 → Option String → Option String → bind_status)
    (s : State) (href : ∀ r n x, verdict r n x ≠ bind_status.ok) :
    ∀ (fuel : Nat) (p : Option call_site) (rt rt1 : v7) (good g : Bool),
      bind_ro_vars verdict s fuel p rt good = some (g, rt1) → rt1 = rt := by
  intro fuel
  induction fuel with
  | zero =>
    intro p rt rt1 good g h
    cases p with
    | none =>
      rw [bind_ro_vars_null] at h
      simp only [Option.some.injEq, Prod.mk.injEq] at h
      exact h.2.symm
    | some v => simp [bind_ro_vars] at h
  | succ n ih =>
    intro p rt rt1 good g h
    cases p with
    | none =>
      rw [bind_ro_vars_null] at h
      simp only [Option.some.injEq, Prod.mk.injEq] at h
      exact h.2.symm
    | some v =>
      simp only [bind_ro_vars, v7_bind] at h
      cases hv : verdict rt (s.vars v).name (deref s (s.vars v).ptr) with
      | ok => exact absurd hv (href _ _ _)
      | rejected =>
        rw [hv] at h
        exact ih _ _ _ _ _ h
      | fatal =>
        rw [hv] at h
        simp only [Option.some.injEq, Prod.mk.injEq] at h
        exact h.2.symm

/-- After registrations from pairwise distinct sites, each with the address of a cell,
the descriptor of each site holds the name of the site and the address of its cell. -/
theorem register_all_var :
    ∀ (regs : List (call_site × Nat)) (s : State),
      (regs.map Prod.fst).Nodup → ∀ r ∈ regs,
      ((register_all (regs.map (fun r => (r.1, cell_arg r.2))) s).vars r.1).name =
          some r.1.name ∧
        ((register_all (regs.map (fun r => (r.1, cell_arg r.2))) s).vars r.1).ptr =
          char_pp.cell r.2 := by
  intro regs
  induction regs using List.reverseRecOn with
  | nil => intro s _ r hr; cases hr
  | append_singleton l r0 ih =>
    intro s hnd r hr
    rw [List.map_append, List.nodup_append] at hnd
    obtain ⟨hl, _, hdisj⟩ := hnd
    simp only [List.map_append, List.map_cons, List.map_nil, register_all_snoc]
    rcases List.mem_append.mp hr with hmem | hlast
    · have hne : r.1 ≠ r0.1 := fun e =>
        hdisj (List.mem_map_of_mem Prod.fst hmem) (by simp [e])
      rw [REGISTER_RO_VAR_other _ _ _ _ hne]
      exact ih s hl r hmem
    · rw [List.mem_singleton] at hlast
      subst hlast
      rw [REGISTER_RO_VAR_self]
      exact ⟨rfl, rfl⟩

/-- The requests made for such registrations carry the name of each site and what its
cell holds when the request is made. -/
theorem register_all_entries (cells1 : Nat → Option String)
    (regs : List (call_site × Nat)) (s : State) (hnd : (regs.map Prod.fst).Nodup) :
    (regs.map Prod.fst).map
        (request { register_all (regs.map (fun r => (r.1, cell_arg r.2))) s with
          cells := cells1 }) =
      regs.map (fun r => (some r.1.name, cells1 r.2)) := by
  rw [List.map_map]
  apply List.map_congr_left
  intro r hr
  obtain ⟨hname, hptr⟩ := register_all_var regs s hnd r hr
  simp only [Function.comp, request]
  rw [hname, hptr]
  rfl

/-- C4: if `device_init_platform` returns a non-success status then `init_device`
returns at once, for every registry (even a cyclic one, with no fuel at all) and every
runtime policy, with a non-zero status and the runtime exactly as it was: none of the
registry's entries is bound, and a runtime with no read-only variable bound still has
none. -/
theorem init_device_aborts_on_platform_failure {sys_config : Type}
    (device_init_platform : sys_config → Int) (s_cfg : sys_config)
    (verdict : v7 → Option String → Option String → bind_status)
    (fuel : Nat) (s : State) (rt : v7) (hfail : device_init_platform s_cfg ≠ 0) :
    init_device device_init_platform s_cfg verdict fuel s rt =
      some (INIT_PLATFORM_FAILED, rt) ∧
    INIT_PLATFORM_FAILED ≠ 0 ∧
    init_device device_init_platform s_cfg verdict fuel s { ro_globals := [] } =
      some (INIT_PLATFORM_FAILED, { ro_globals := [] }) := by
  refine ⟨?_, by decide, ?_⟩ <;> simp [init_device, hfail]

/-- Witness for C4: the platform hook returns -1 on the sample registry. -/
theorem init_device_aborts_on_platform_failure_witness :
    (fun _ : Unit => (-1 : Int)) () ≠ 0 ∧
    init_device (fun _ : Unit => (-1 : Int)) () (fun _ _ _ => bind_status.ok) 2
      sample_registry { ro_globals := [] } = some (1, { ro_globals := [] }) :=
  ⟨by decide,
    (init_device_aborts_on_platform_failure (fun _ : Unit => (-1 : Int)) ()
      (fun _ _ _ => bind_status.ok) 2 sample_registry { ro_globals := [] } (by decide)).1⟩

/-- C3 as stated fails: with the two sample registrations, a successful platform hook
and a runtime that rejects every bind request, `init_device` ends with the
binding-failure status and no global bound; no fuel makes it bind two. -/
theorem init_device_binds_nothing_when_rejected :
    init_device (fun _ : Unit => (0 : Int)) () (fun _ _ _ => bind_status.rejected) 2
      sample_registry { ro_globals := [] } = some (INIT_BIND_FAILED, { ro_globals := [] }) ∧
    ¬ ∃ fuel st rt,
      init_device (fun _ : Unit => (0 : Int)) () (fun _ _ _ => bind_status.rejected) fuel
        sample_registry { ro_globals := [] } = some (st, rt) ∧ rt.ro_globals.length = 2 := by
  refine ⟨by rfl, ?_⟩
  rintro ⟨fuel, st, rt, h, hlen⟩
  simp only [init_device, ne_eq, not_true_eq_false, ↓reduceIte] at h
  cases hb : bind_ro_vars (fun _ _ _ => bind_status.rejected) sample_registry fuel
      sample_registry.g_ro_vars { ro_globals := [] } true with
  | none => rw [hb] at h; cases h
  | some res =>
    obtain ⟨g, rt1⟩ := res
    have hrt1 : rt1 = { ro_globals := [] } :=
      bind_ro_vars_refusing _ _ (fun _ _ _ => by decide) _ _ _ _ _ _ hb
    rw [hb] at h
    subst hrt1
    cases g <;> simp at h <;> (rw [← h.2] at hlen; simp at hlen)

/-- C3 (amended): register N entries with pairwise distinct names on an empty registry,
each with an argument `&x` that does not name `v`, let the cells hold anything at bind
time, and let `device_init_platform` succeed.  If the runtime accepts each of the N bind
requests this call makes, `init_device` (with fuel at least N) returns 0 and adds to the
runtime exactly N read-only globals, one per registered name in traversal order, each
with the string its value cell points to at bind time.  If the runtime does not accept
one of them, `init_device` returns the binding-failure status and adds fewer than N. -/
theorem init_device_binds_registered {sys_config : Type}
    (device_init_platform : sys_config → Int) (s_cfg : sys_config)
    (verdict : v7 → Option String → Option String → bind_status)
    (regs : List (call_site × Nat)) (s : State) (cells_at_bind : Nat → Option String)
    (rt : v7) (hs : s.g_ro_vars = none)
    (hnames : (regs.map (fun r => r.1.name)).Nodup)
    (hplat : device_init_platform s_cfg = 0) :
    (accepts_all verdict rt
        (regs.reverse.map (fun r => (some r.1.name, cells_at_bind r.2))) = true →
      ∀ fuel, regs.length ≤ fuel →
        init_device device_init_platform s_cfg verdict fuel
          { register_all (regs.map (fun r => (r.1, cell_arg r.2))) s with
            cells := cells_at_bind } rt =
        some (INIT_OK,
          { ro_globals :=
              rt.ro_globals ++
                regs.reverse.map (fun r => (some r.1.name, cells_at_bind r.2)) })) ∧
    INIT_OK = 0 ∧
    (regs.reverse.map (fun r => (some r.1.name, cells_at_bind r.2))).length = regs.length ∧
    (accepts_all verdict rt
        (regs.reverse.map (fun r => (some r.1.name, cells_at_bind r.2))) = false →
      ∀ fuel, regs.length ≤ fuel →
        ∃ rt1, init_device device_init_platform s_cfg verdict fuel
          { register_all (regs.map (fun r => (r.1, cell_arg r.2))) s with
            cells := cells_at_bind } rt = some (INIT_BIND_FAILED, rt1) ∧
          rt1.ro_globals.length < rt.ro_globals.length + regs.length) := by
  have hsites : (regs.map Prod.fst).Nodup := by
    have : ((regs.map Prod.fst).map call_site.name).Nodup := by
      rw [List.map_map]; exact hnames
    exact List.Nodup.of_map _ this
  have hmap : (regs.map (fun r => ((r.1, cell_arg r.2) : call_site × ptr_arg))).map Prod.fst =
      regs.map Prod.fst := by
    rw [List.map_map]; rfl
  have hwalk : ∀ fuel, regs.length ≤ fuel →
      walk { register_all (regs.map (fun r => (r.1, cell_arg r.2))) s with
        cells := cells_at_bind } fuel
        (register_all (regs.map (fun r => (r.1, cell_arg r.2))) s).g_ro_vars =
      some (regs.map Prod.fst).reverse := by
    intro fuel hfuel
    rw [walk_cells, ← hmap]
    exact traverse_register_all_fuel _ s hs (by rw [hmap]; exact hsites) fuel
      (by simpa using hfuel)
  have hreq : (regs.map Prod.fst).reverse.map
      (request { register_all (regs.map (fun r => (r.1, cell_arg r.2))) s with
        cells := cells_at_bind }) =
      regs.reverse.map (fun r => (some r.1.name, cells_at_bind r.2)) := by
    rw [List.map_reverse, List.map_reverse]
    exact congrArg List.reverse (register_all_entries cells_at_bind regs s hsites)
  refine ⟨?_, rfl, by simp, ?_⟩
  · intro hacc fuel hfuel
    have hbind := bind_ro_vars_accepted verdict _ fuel _ _ rt true (hwalk fuel hfuel)
      (by rw [hreq]; exact hacc)
    rw [hreq] at hbind
    simp only [init_device, hplat, ne_eq, not_true_eq_false, ↓reduceIte]
    rw [hbind]
  · intro hacc fuel hfuel
    obtain ⟨rt1, hbind, hlen⟩ := bind_ro_vars_not_accepted verdict _ fuel _ _ rt true
      (hwalk fuel hfuel) (by rw [hreq]; exact hacc)
    refine ⟨rt1, ?_, by simpa using hlen⟩
    simp only [init_device, hplat, ne_eq, not_true_eq_false, ↓reduceIte]
    rw [hbind]

/-- Witness for C3: registering `fw_version` (cell 0, "1.2.3") and `board_id` (cell 1,
"rev-A") and calling `init_device` on a fresh runtime that has room for two globals (it
would reject a third) leaves exactly those two names bound with those strings. -/
theorem init_device_binds_registered_witness :
    (boot sample_cells).g_ro_vars = none ∧
    ([(fw_version, 0), (board_id, 1)].map (fun r : call_site × Nat => r.1.name)).Nodup ∧
    (fun _ : Unit => (0 : Int)) () = 0 ∧
    accepts_all
      (fun r _ _ => if r.ro_globals.length < 2 then bind_status.ok else bind_status.rejected)
      { ro_globals := [] }
      [(some "board_id", some "rev-A"), (some "fw_version", some "1.2.3")] = true ∧
    init_device (fun _ : Unit => (0 : Int)) ()
        (fun r _ _ => if r.ro_globals.length < 2 then bind_status.ok else bind_status.rejected)
        2 sample_registry { ro_globals := [] } =
      some (0, { ro_globals :=
        [(some "board_id", some "rev-A"), (some "fw_version", some "1.2.3")] }) :=
  ⟨rfl, by decide, rfl, by decide,
    (init_device_binds_registered (fun _ : Unit => (0 : Int)) ()
      (fun r _ _ => if r.ro_globals.length < 2 then bind_status.ok else bind_status.rejected)
      [(fw_version, 0), (board_id, 1)] (boot sample_cells)
      sample_cells { ro_globals := [] } rfl (by decide) rfl).1 (by decide) 2 (by decide)⟩

end DeviceConfig
